import Mathlib

/-!
Verification of the blob-reassembly loop of `PluginToolManager.invoke`
(`api/core/plugin/impl/tool.py`, lines 116-170).

The loop consumes a stream of `ToolInvokeMessage` values.  Events of type
`BLOB_CHUNK` are accumulated into per-id `FileChunk` buffers; every other
event is passed through unchanged.  Raising a `ValueError` inside the
generator aborts the whole output sequence; we model that with an
`Option InvokeError` result attached to the produced output list.

Bytes are modelled as `Nat` (the 0..255 range plays no role in any claim).
The opaque `meta` field is a type parameter `μ`.
-/

set_option autoImplicit false

/-- A byte of a blob payload. -/
abbrev Byte := Nat

/-- `class FileChunk` (tool.py lines 116-128): per-id reassembly state. -/
structure FileChunk where
  bytes_written : Nat
  total_length : Nat
  data : List Byte
  deriving DecidableEq

/-- `FileChunk.__init__` (tool.py lines 125-128): `bytearray(total_length)`
is a zero-filled buffer of `total_length` bytes. -/
def FileChunk.init (total_length : Nat) : FileChunk :=
  { bytes_written := 0, total_length := total_length, data := List.replicate total_length 0 }

/-- The stream message type.  `blobChunk` carries the fields of
`ToolInvokeMessage.BlobChunkMessage` (`id`, `total_length`, `blob`, `end`)
plus the envelope `meta`; `blob` is the synthesized whole-blob message;
every other message type is collapsed into `other` (the loop treats all
non-chunk types identically: it passes them through). -/
inductive ToolInvokeMessage (μ : Type) where
  | blobChunk (id : String) (total_length : Nat) (blob : List Byte) (is_end : Bool) (meta : μ)
  | blob (data : List Byte) (meta : μ)
  | other (payload : Nat) (meta : μ)
  deriving DecidableEq

/-- `resp.type == ToolInvokeMessage.MessageType.BLOB_CHUNK` (tool.py line 132). -/
def ToolInvokeMessage.isBlobChunk {μ : Type} : ToolInvokeMessage μ → Bool
  | .blobChunk _ _ _ _ _ => true
  | _ => false

/-- The `end` flag of a chunk message (`false` for non-chunk messages). -/
def ToolInvokeMessage.isFinalChunk {μ : Type} : ToolInvokeMessage μ → Bool
  | .blobChunk _ _ _ e _ => e
  | _ => false

/-- The `files: dict[str, FileChunk]` map (tool.py line 130), as an
association list with at most one entry per key. -/
abbrev Files := List (String × FileChunk)

/-- Dictionary lookup `files[chunk_id]` / `chunk_id in files`. -/
def getFile : Files → String → Option FileChunk
  | [], _ => none
  | (k, v) :: rest, i => if k = i then some v else getFile rest i

/-- Dictionary assignment `files[chunk_id] = v` (replaces the entry in place). -/
def setFile : Files → String → FileChunk → Files
  | [], i, v => [(i, v)]
  | (k, w) :: rest, i, v => if k = i then (i, v) :: rest else (k, w) :: setFile rest i v

/-- Dictionary deletion `del files[chunk_id]` (tool.py line 155). -/
def delFile : Files → String → Files
  | [], _ => []
  | (k, w) :: rest, i => if k = i then delFile rest i else (k, w) :: delFile rest i

/-- Lines 140-142: `if chunk_id not in files: files[chunk_id] = FileChunk(total_length)`. -/
def initIfAbsent (fs : Files) (i : String) (total_length : Nat) : Files :=
  if (getFile fs i).isSome then fs else setFile fs i (FileChunk.init total_length)

/-- Python `bytearray` slice assignment `buf[start : start + len(repl)] = repl`:
the slice bounds are clamped to the buffer length, so a write past the end
extends the buffer. -/
def sliceAssign (buf : List Byte) (start : Nat) (repl : List Byte) : List Byte :=
  buf.take start ++ repl ++ buf.drop (start + repl.length)

/-- Lines 164-168: write the chunk payload at offset `bytes_written`, then
advance `bytes_written` by the payload length. -/
def writeChunk (fc : FileChunk) (blob_data : List Byte) : FileChunk :=
  { bytes_written := fc.bytes_written + blob_data.length,
    total_length := fc.total_length,
    data := sliceAssign fc.data fc.bytes_written blob_data }

/-- The two `ValueError`s the loop can raise (tool.py lines 157 and 162). -/
inductive InvokeError where
  | blobTooLarge
  | chunkTooLarge
  deriving DecidableEq

/-- One iteration of the `for resp in response` loop body (tool.py lines
131-170): returns the updated `files` map, the messages yielded by this
iteration, and the error if the iteration raised. -/
def invokeStep {μ : Type} (fs : Files) (resp : ToolInvokeMessage μ) :
    Files × List (ToolInvokeMessage μ) × Option InvokeError :=
  match resp with
  | ToolInvokeMessage.blobChunk chunk_id total_length blob_data is_end meta =>
      let fs1 := initIfAbsent fs chunk_id total_length
      let fc := (getFile fs1 chunk_id).getD (FileChunk.init total_length)
      if is_end then
        (fs1, [ToolInvokeMessage.blob fc.data meta], none)
      else if fc.bytes_written + blob_data.length > 30 * 1024 * 1024 then
        (delFile fs1 chunk_id, [], some InvokeError.blobTooLarge)
      else if blob_data.length > 8192 then
        (fs1, [], some InvokeError.chunkTooLarge)
      else
        (setFile fs1 chunk_id (writeChunk fc blob_data), [], none)
  | m => (fs, [m], none)

/-- The whole `for resp in response` loop, from an arbitrary `files` state:
returns the yielded messages and the error that aborted the loop, if any.
A raise terminates the generator: no later event is processed. -/
def invokeLoopAux {μ : Type} : Files → List (ToolInvokeMessage μ) →
    List (ToolInvokeMessage μ) × Option InvokeError
  | _, [] => ([], none)
  | fs, resp :: rest =>
      match invokeStep fs resp with
      | (fs2, outs, none) =>
          let r := invokeLoopAux fs2 rest
          (outs ++ r.1, r.2)
      | (_, outs, some e) => (outs, some e)

/-- `PluginToolManager.invoke` restricted to its reassembly loop (tool.py
lines 130-170), starting from the empty `files` map. -/
def PluginToolManager.invoke {μ : Type} (resps : List (ToolInvokeMessage μ)) :
    List (ToolInvokeMessage μ) × Option InvokeError :=
  invokeLoopAux [] resps

/-! ### Basic lemmas about the `files` map -/

theorem getFile_setFile_self (fs : Files) (i : String) (v : FileChunk) :
    getFile (setFile fs i v) i = some v := by
  induction fs with
  | nil => simp [setFile, getFile]
  | cons p rest ih =>
      obtain ⟨k, w⟩ := p
      by_cases hk : k = i
      · simp [setFile, hk, getFile]
      · simp [setFile, hk, getFile, ih]

theorem getFile_initIfAbsent_isSome (fs : Files) (i : String) (tl : Nat) :
    (getFile (initIfAbsent fs i tl) i).isSome = true := by
  unfold initIfAbsent
  by_cases h : (getFile fs i).isSome = true
  · simp [h]
  · simp [h, getFile_setFile_self]

theorem getFile_mem (fs : Files) (i : String) (v : FileChunk)
    (h : getFile fs i = some v) : (i, v) ∈ fs := by
  induction fs with
  | nil => simp [getFile] at h
  | cons p rest ih =>
      obtain ⟨k, w⟩ := p
      by_cases hk : k = i
      · simp [getFile, hk] at h
        simp [hk, h]
      · simp [getFile, hk] at h
        exact List.mem_cons_of_mem _ (ih h)

theorem mem_setFile (fs : Files) (i : String) (v : FileChunk) (p : String × FileChunk)
    (h : p ∈ setFile fs i v) : p = (i, v) ∨ p ∈ fs := by
  induction fs with
  | nil => simp [setFile] at h; simp [h]
  | cons q rest ih =>
      obtain ⟨k, w⟩ := q
      by_cases hk : k = i
      · simp [setFile, hk] at h
        rcases h with h | h
        · exact Or.inl h
        · exact Or.inr (List.mem_cons_of_mem _ h)
      · simp [setFile, hk] at h
        rcases h with h | h
        · exact Or.inr (by simp [h])
        · rcases ih h with h2 | h2
          · exact Or.inl h2
          · exact Or.inr (List.mem_cons_of_mem _ h2)

theorem mem_initIfAbsent (fs : Files) (i : String) (tl : Nat) (p : String × FileChunk)
    (h : p ∈ initIfAbsent fs i tl) : p = (i, FileChunk.init tl) ∨ p ∈ fs := by
  unfold initIfAbsent at h
  by_cases hs : (getFile fs i).isSome = true
  · simp [hs] at h; exact Or.inr h
  · simp [hs] at h
    exact mem_setFile fs i _ p h

/-! ### C7: pass-through of non-chunk events -/

theorem invokeLoopAux_passthrough {μ : Type} (evs : List (ToolInvokeMessage μ))
    (h : ∀ e ∈ evs, e.isBlobChunk = false) (fs : Files) :
    invokeLoopAux fs evs = (evs, none) := by
  induction evs generalizing fs with
  | nil => rfl
  | cons e rest ih =>
      have he := h e (List.mem_cons_self e rest)
      have hrest : ∀ x ∈ rest, x.isBlobChunk = false :=
        fun x hx => h x (List.mem_cons_of_mem e hx)
      cases e with
      | blobChunk i tl d en m => simp [ToolInvokeMessage.isBlobChunk] at he
      | blob d m => simp [invokeLoopAux, invokeStep, ih hrest fs]
      | other p m => simp [invokeLoopAux, invokeStep, ih hrest fs]

/-- C7: for any input sequence with no `BlobChunk` events, the reassembly
loop outputs exactly the input sequence, unchanged and in order, and raises
no error. -/
theorem invoke_passthrough_identity {μ : Type} (evs : List (ToolInvokeMessage μ))
    (h : ∀ e ∈ evs, e.isBlobChunk = false) :
    PluginToolManager.invoke evs = (evs, none) :=
  invokeLoopAux_passthrough evs h []

/-- Witness for C7 at a concrete two-event input. -/
theorem invoke_passthrough_identity_witness :
    (∀ e ∈ [ToolInvokeMessage.other 1 (0 : Nat), ToolInvokeMessage.blob [2] 0],
        e.isBlobChunk = false)
    ∧ PluginToolManager.invoke [ToolInvokeMessage.other 1 (0 : Nat), ToolInvokeMessage.blob [2] 0]
        = ([ToolInvokeMessage.other 1 0, ToolInvokeMessage.blob [2] 0], none) :=
  ⟨by decide, invoke_passthrough_identity _ (by decide)⟩

/-! ### C9: metadata of the emitted blob comes from the terminal chunk -/

/-- C9: processing a terminal chunk, from any `files` state whatsoever,
yields exactly one `Blob` message whose `meta` is the terminal chunk's
`meta` (earlier chunks only influenced the buffer, never the `meta`), and
raises no error. -/
theorem invokeStep_final_meta {μ : Type} (fs : Files) (i : String) (tl : Nat)
    (d : List Byte) (m : μ) :
    ∃ buf, invokeStep fs (ToolInvokeMessage.blobChunk i tl d true m)
      = (initIfAbsent fs i tl, [ToolInvokeMessage.blob buf m], none) :=
  ⟨_, rfl⟩

/-! ### C1: the multi-chunk example -/

/-- C1 counterexample: on chunks `{id="x", data=[65,66] ("AB"), end=false}`
then `{id="x", data=[67,68] ("CD"), end=true}` (declared total length 4),
the loop emits one `Blob` whose content is `[65,66,0,0]` — the final
chunk's data is never written — which differs from `[65,66,67,68]`
("ABCD") as the claim demands. -/
theorem multi_chunk_counterexample :
    PluginToolManager.invoke
        [ToolInvokeMessage.blobChunk "x" 4 [65, 66] false (0 : Nat),
         ToolInvokeMessage.blobChunk "x" 4 [67, 68] true 0]
      = ([ToolInvokeMessage.blob [65, 66, 0, 0] 0], none)
    ∧ ([65, 66, 0, 0] : List Byte) ≠ [65, 66, 67, 68] := by
  constructor
  · decide
  · decide

/-! ### C2: the single-chunk blob -/

/-- C2 counterexample: a lone chunk `{id="x", total_length=1, data=[65],
end=true}` yields a `Blob` whose content is `[0]` (the zero-filled buffer),
not the chunk's data `[65]`. -/
theorem single_chunk_counterexample :
    PluginToolManager.invoke [ToolInvokeMessage.blobChunk "x" 1 [65] true (0 : Nat)]
      = ([ToolInvokeMessage.blob [0] 0], none)
    ∧ ([0] : List Byte) ≠ [65] := by
  constructor
  · decide
  · decide

theorem invokeLoopAux_single_final {μ : Type} (post : List (ToolInvokeMessage μ))
    (i : String) (tl : Nat) (d : List Byte) (m : μ)
    (hpost : ∀ e ∈ post, e.isBlobChunk = false) :
    ∀ (pre : List (ToolInvokeMessage μ)) (fs : Files),
      (∀ e ∈ pre, e.isBlobChunk = false) → getFile fs i = none →
      invokeLoopAux fs (pre ++ ToolInvokeMessage.blobChunk i tl d true m :: post)
        = (pre ++ ToolInvokeMessage.blob (List.replicate tl 0) m :: post, none) := by
  intro pre
  induction pre with
  | nil =>
      intro fs _ hfs
      have hstep : invokeStep fs (ToolInvokeMessage.blobChunk i tl d true m)
          = (setFile fs i (FileChunk.init tl),
             [ToolInvokeMessage.blob (List.replicate tl 0) m], none) := by
        simp [invokeStep, initIfAbsent, hfs, getFile_setFile_self, FileChunk.init]
      simp [invokeLoopAux, hstep, invokeLoopAux_passthrough post hpost _]
  | cons e pre2 ih =>
      intro fs hpre hfs
      have he := hpre e (List.mem_cons_self e pre2)
      have hpre2 : ∀ x ∈ pre2, x.isBlobChunk = false :=
        fun x hx => hpre x (List.mem_cons_of_mem e hx)
      cases e with
      | blobChunk i2 tl2 d2 en2 m2 => simp [ToolInvokeMessage.isBlobChunk] at he
      | blob d2 m2 => simp [invokeLoopAux, invokeStep, ih fs hpre2 hfs]
      | other p2 m2 => simp [invokeLoopAux, invokeStep, ih fs hpre2 hfs]

/-- C2 amended: for an input sequence whose only `BlobChunk` event is a
terminal chunk, the loop outputs the sequence with the chunk replaced, in
position, by a single synthesized `Blob` whose content is the freshly
allocated zero-filled buffer of `total_length` bytes — the chunk's data is
never written, so the blob's length is `total_length`, not the data's
length. -/
theorem single_chunk_amended {μ : Type} (pre post : List (ToolInvokeMessage μ))
    (i : String) (tl : Nat) (d : List Byte) (m : μ)
    (hpre : ∀ e ∈ pre, e.isBlobChunk = false)
    (hpost : ∀ e ∈ post, e.isBlobChunk = false) :
    PluginToolManager.invoke (pre ++ ToolInvokeMessage.blobChunk i tl d true m :: post)
      = (pre ++ ToolInvokeMessage.blob (List.replicate tl 0) m :: post, none) :=
  invokeLoopAux_single_final post i tl d m hpost pre [] hpre rfl

/-- Witness for C2's amended statement. -/
theorem single_chunk_amended_witness :
    (∀ e ∈ [ToolInvokeMessage.other 1 (0 : Nat)], e.isBlobChunk = false)
    ∧ (∀ e ∈ [ToolInvokeMessage.blob [2] (0 : Nat)], e.isBlobChunk = false)
    ∧ PluginToolManager.invoke
        ([ToolInvokeMessage.other 1 (0 : Nat)]
          ++ ToolInvokeMessage.blobChunk "x" 2 [65] true 3 :: [ToolInvokeMessage.blob [2] 0])
      = ([ToolInvokeMessage.other 1 0]
          ++ ToolInvokeMessage.blob (List.replicate 2 0) 3 :: [ToolInvokeMessage.blob [2] 0],
         none) :=
  ⟨by decide, by decide,
    single_chunk_amended [ToolInvokeMessage.other 1 0] [ToolInvokeMessage.blob [2] 0]
      "x" 2 [65] 3 (by decide) (by decide)⟩

/-! ### C4: the pending entry is not removed on emission -/

/-- C4 counterexample: after the terminal chunk for `"x"` is processed and
its `Blob` emitted, the `files` map still contains the `"x"` entry — it is
not removed. -/
theorem pending_entry_counterexample :
    getFile (invokeStep ([] : Files) (ToolInvokeMessage.blobChunk "x" 0 [] true (0 : Nat))).1 "x"
      = some (FileChunk.init 0) := by
  decide

/-! ### C3: the per-chunk 8 KiB guard -/

/-- C3 counterexample: a terminal chunk whose payload has 8193 bytes (over
the 8 KiB ceiling) raises no error at all — the terminal branch bypasses
both size guards — and a `Blob` is still emitted. -/
theorem chunk_size_counterexample :
    8192 < (List.replicate 8193 (7 : Byte)).length
    ∧ PluginToolManager.invoke
        [ToolInvokeMessage.blobChunk "x" 0 (List.replicate 8193 7) true (0 : Nat)]
      = ([ToolInvokeMessage.blob [] 0], none) := by
  constructor
  · rw [List.length_replicate]
    decide
  · rfl

/-- C3 amended: for a NON-final chunk that does not trip the cumulative
30 MiB guard (which the code checks first), a payload above 8192 bytes
raises the chunk-size error before any write — the `files` map is left at
`initIfAbsent fs i tl`, untouched by the chunk's data — and the loop emits
nothing further.  Terminal chunks bypass the guard entirely. -/
theorem chunk_size_guard {μ : Type} (fs : Files) (i : String) (tl : Nat) (d : List Byte)
    (m : μ) (rest : List (ToolInvokeMessage μ))
    (hbw : ((getFile (initIfAbsent fs i tl) i).getD (FileChunk.init tl)).bytes_written + d.length
             ≤ 30 * 1024 * 1024)
    (hlen : 8192 < d.length) :
    invokeStep fs (ToolInvokeMessage.blobChunk i tl d false m)
      = (initIfAbsent fs i tl, [], some InvokeError.chunkTooLarge)
    ∧ invokeLoopAux fs (ToolInvokeMessage.blobChunk i tl d false m :: rest)
      = ([], some InvokeError.chunkTooLarge) := by
  have h1 : ¬ (31457280 <
      ((getFile (initIfAbsent fs i tl) i).getD (FileChunk.init tl)).bytes_written + d.length) := by
    omega
  have hstep : invokeStep fs (ToolInvokeMessage.blobChunk i tl d false m)
      = (initIfAbsent fs i tl, [], some InvokeError.chunkTooLarge) := by
    simp [invokeStep, h1, hlen]
  refine ⟨hstep, ?_⟩
  simp [invokeLoopAux, hstep]

/-- Witness for C3's amended guard at a concrete oversized chunk. -/
theorem chunk_size_guard_witness :
    (((getFile (initIfAbsent [] "x" 0) "x").getD (FileChunk.init 0)).bytes_written
        + (List.replicate 8193 (7 : Byte)).length ≤ 30 * 1024 * 1024)
    ∧ 8192 < (List.replicate 8193 (7 : Byte)).length
    ∧ invokeStep ([] : Files)
        (ToolInvokeMessage.blobChunk "x" 0 (List.replicate 8193 (7 : Byte)) false (0 : Nat))
      = (initIfAbsent [] "x" 0, [], some InvokeError.chunkTooLarge) := by
  have h1 : ((getFile (initIfAbsent [] "x" 0) "x").getD (FileChunk.init 0)).bytes_written
      + (List.replicate 8193 (7 : Byte)).length ≤ 30 * 1024 * 1024 := by
    rw [List.length_replicate]
    decide
  have h2 : 8192 < (List.replicate 8193 (7 : Byte)).length := by
    rw [List.length_replicate]
    decide
  exact ⟨h1, h2, (chunk_size_guard [] "x" 0 (List.replicate 8193 7) 0 [] h1 h2).1⟩

/-! ### C5: the cumulative 30 MiB guard -/

/-- C5 counterexample: a terminal chunk whose payload alone would push the
cumulative total over 30 MiB is not checked at all — the terminal branch
bypasses the cumulative guard — so no `BlobTooLarge` is raised and a `Blob`
is emitted. -/
theorem blob_size_counterexample :
    30 * 1024 * 1024 < 0 + (List.replicate (30 * 1024 * 1024 + 1) (7 : Byte)).length
    ∧ PluginToolManager.invoke
        [ToolInvokeMessage.blobChunk "x" 0 (List.replicate (30 * 1024 * 1024 + 1) 7) true (0 : Nat)]
      = ([ToolInvokeMessage.blob [] 0], none) := by
  constructor
  · rw [List.length_replicate]
    decide
  · rfl

/-- C5 amended: for a NON-final chunk whose payload would push the
cumulative bytes written for its id over 30 MiB, the loop first removes
the pending entry for that id and then fails with the blob-size error —
with no hypothesis on the chunk's own length, so this holds even for
chunks of at most 8 KiB — and nothing further is emitted.  Terminal chunks
bypass the guard entirely. -/
theorem blob_size_guard {μ : Type} (fs : Files) (i : String) (tl : Nat) (d : List Byte)
    (m : μ) (rest : List (ToolInvokeMessage μ))
    (hbw : 30 * 1024 * 1024 <
        ((getFile (initIfAbsent fs i tl) i).getD (FileChunk.init tl)).bytes_written + d.length) :
    invokeStep fs (ToolInvokeMessage.blobChunk i tl d false m)
      = (delFile (initIfAbsent fs i tl) i, [], some InvokeError.blobTooLarge)
    ∧ invokeLoopAux fs (ToolInvokeMessage.blobChunk i tl d false m :: rest)
      = ([], some InvokeError.blobTooLarge) := by
  have hstep : invokeStep fs (ToolInvokeMessage.blobChunk i tl d false m)
      = (delFile (initIfAbsent fs i tl) i, [], some InvokeError.blobTooLarge) := by
    simp [invokeStep, hbw]
  refine ⟨hstep, ?_⟩
  simp [invokeLoopAux, hstep]

/-- Witness for C5's amended guard: an id whose pending entry has
30 MiB already written, receiving a 1-byte non-final chunk. -/
theorem blob_size_guard_witness :
    (30 * 1024 * 1024 <
      ((getFile
          (initIfAbsent [("x", FileChunk.mk 31457280 4 [0, 0, 0, 0])] "x" 9) "x").getD
          (FileChunk.init 9)).bytes_written + ([1] : List Byte).length)
    ∧ invokeStep [("x", FileChunk.mk 31457280 4 [0, 0, 0, 0])]
        (ToolInvokeMessage.blobChunk "x" 9 [1] false (0 : Nat))
      = (delFile (initIfAbsent [("x", FileChunk.mk 31457280 4 [0, 0, 0, 0])] "x" 9) "x", [],
          some InvokeError.blobTooLarge) := by
  have h1 : 30 * 1024 * 1024 <
      ((getFile
          (initIfAbsent [("x", FileChunk.mk 31457280 4 [0, 0, 0, 0])] "x" 9) "x").getD
          (FileChunk.init 9)).bytes_written + ([1] : List Byte).length := by
    decide
  exact ⟨h1, (blob_size_guard [("x", FileChunk.mk 31457280 4 [0, 0, 0, 0])] "x" 9 [1] 0 [] h1).1⟩

/-! ### C6: a size error terminates the output sequence -/

/-- C6: once the loop's error is raised while processing `evs`, appending
any further events `rest` changes nothing: the extra events are never
processed and no further message is produced. -/
theorem size_error_aborts {μ : Type} (fs : Files) (evs rest : List (ToolInvokeMessage μ))
    (h : (invokeLoopAux fs evs).2.isSome = true) :
    invokeLoopAux fs (evs ++ rest) = invokeLoopAux fs evs := by
  induction evs generalizing fs with
  | nil => simp [invokeLoopAux] at h
  | cons e es ih =>
      rcases hstep : invokeStep fs e with ⟨fs2, outs, err⟩
      cases err with
      | none =>
          have h2 : (invokeLoopAux fs2 es).2.isSome = true := by
            simpa [invokeLoopAux, hstep] using h
          simp [invokeLoopAux, hstep, ih fs2 h2]
      | some e2 => simp [invokeLoopAux, hstep]

/-- Witness for C6: a run that trips the cumulative guard, extended by one
more event which is provably never processed. -/
theorem size_error_aborts_witness :
    ((invokeLoopAux [("x", FileChunk.mk 31457280 4 [0, 0, 0, 0])]
        [ToolInvokeMessage.blobChunk "x" 9 [1] false (0 : Nat)]).2.isSome = true)
    ∧ invokeLoopAux [("x", FileChunk.mk 31457280 4 [0, 0, 0, 0])]
        ([ToolInvokeMessage.blobChunk "x" 9 [1] false (0 : Nat)]
          ++ [ToolInvokeMessage.other 5 0])
      = invokeLoopAux [("x", FileChunk.mk 31457280 4 [0, 0, 0, 0])]
        [ToolInvokeMessage.blobChunk "x" 9 [1] false (0 : Nat)] := by
  have h1 : (invokeLoopAux [("x", FileChunk.mk 31457280 4 [0, 0, 0, 0])]
      [ToolInvokeMessage.blobChunk "x" 9 [1] false (0 : Nat)]).2.isSome = true := by
    decide
  exact ⟨h1, size_error_aborts _ _ [ToolInvokeMessage.other 5 0] h1⟩

/-- C1 amended: on a non-final chunk `ab` (within the 8 KiB guard) followed
by a terminal chunk `cd` for the same id, the loop emits exactly one
`Blob`, at the position of the terminal chunk, whose content is `ab`
zero-padded to the `total_length` declared by the first chunk — the
terminal chunk's data `cd` is never written. -/
theorem multi_chunk_amended {μ : Type} (i : String) (tl tl2 : Nat) (ab cd : List Byte)
    (m1 m2 : μ) (h : ab.length ≤ 8192) :
    PluginToolManager.invoke
        [ToolInvokeMessage.blobChunk i tl ab false m1,
         ToolInvokeMessage.blobChunk i tl2 cd true m2]
      = ([ToolInvokeMessage.blob (ab ++ List.replicate (tl - ab.length) 0) m2], none) := by
  have h1 : ¬ (31457280 < ab.length) := by omega
  have h2 : ¬ (8192 < ab.length) := by omega
  simp [PluginToolManager.invoke, invokeLoopAux, invokeStep, initIfAbsent, getFile, setFile,
    writeChunk, sliceAssign, FileChunk.init, h1, h2, List.drop_replicate]

/-- Witness for C1's amended statement on the spec's own example bytes. -/
theorem multi_chunk_amended_witness :
    (([65, 66] : List Byte).length ≤ 8192)
    ∧ PluginToolManager.invoke
        [ToolInvokeMessage.blobChunk "x" 4 [65, 66] false (0 : Nat),
         ToolInvokeMessage.blobChunk "x" 4 [67, 68] true 1]
      = ([ToolInvokeMessage.blob
            ([65, 66] ++ List.replicate (4 - ([65, 66] : List Byte).length) 0) 1], none) :=
  ⟨by decide, multi_chunk_amended "x" 4 4 [65, 66] [67, 68] 0 1 (by decide)⟩

/-! ### C4 amended: key uniqueness is kept, but emission removes nothing -/

theorem keys_mem_setFile (fs : Files) (i : String) (v : FileChunk) (j : String)
    (h : j ∈ (setFile fs i v).map Prod.fst) : j = i ∨ j ∈ fs.map Prod.fst := by
  rcases List.mem_map.1 h with ⟨p, hp, hj⟩
  rcases mem_setFile fs i v p hp with h2 | h2
  · subst h2; exact Or.inl hj.symm
  · exact Or.inr (List.mem_map.2 ⟨p, h2, hj⟩)

theorem nodup_keys_setFile (fs : Files) (i : String) (v : FileChunk)
    (h : (fs.map Prod.fst).Nodup) : ((setFile fs i v).map Prod.fst).Nodup := by
  induction fs with
  | nil => simp [setFile]
  | cons q rest ih =>
      obtain ⟨k, w⟩ := q
      simp only [List.map_cons, List.nodup_cons] at h
      by_cases hk : k = i
      · subst hk
        simpa [setFile] using h
      · have hnd := ih h.2
        have hk2 : k ∉ (setFile rest i v).map Prod.fst := by
          intro hmem
          rcases keys_mem_setFile rest i v k hmem with h2 | h2
          · exact hk h2
          · exact h.1 h2
        simp only [setFile, hk, if_false, List.map_cons, List.nodup_cons]
        exact ⟨hk2, hnd⟩

theorem keys_mem_delFile (fs : Files) (i : String) (j : String)
    (h : j ∈ (delFile fs i).map Prod.fst) : j ∈ fs.map Prod.fst := by
  induction fs with
  | nil => simp [delFile] at h
  | cons q rest ih =>
      obtain ⟨k, w⟩ := q
      by_cases hk : k = i
      · simp only [delFile, hk, if_pos rfl] at h
        exact List.mem_cons_of_mem _ (ih h)
      · simp only [delFile, hk, if_false, List.map_cons, List.mem_cons] at h
        rcases h with h | h
        · simp [h]
        · exact List.mem_cons_of_mem _ (ih h)

theorem nodup_keys_delFile (fs : Files) (i : String)
    (h : (fs.map Prod.fst).Nodup) : ((delFile fs i).map Prod.fst).Nodup := by
  induction fs with
  | nil => simp [delFile]
  | cons q rest ih =>
      obtain ⟨k, w⟩ := q
      simp only [List.map_cons, List.nodup_cons] at h
      by_cases hk : k = i
      · simp only [delFile, hk, if_pos rfl]
        exact ih h.2
      · simp only [delFile, hk, if_false, List.map_cons, List.nodup_cons]
        exact ⟨fun hmem => h.1 (keys_mem_delFile rest i k hmem), ih h.2⟩

theorem nodup_keys_initIfAbsent (fs : Files) (i : String) (tl : Nat)
    (h : (fs.map Prod.fst).Nodup) : ((initIfAbsent fs i tl).map Prod.fst).Nodup := by
  unfold initIfAbsent
  by_cases hs : (getFile fs i).isSome = true
  · simpa [hs] using h
  · simp only [hs, if_false]
    exact nodup_keys_setFile fs i _ h

theorem nodup_keys_invokeStep {μ : Type} (fs : Files) (e : ToolInvokeMessage μ)
    (h : (fs.map Prod.fst).Nodup) : (((invokeStep fs e).1).map Prod.fst).Nodup := by
  cases e with
  | blobChunk i tl d en m =>
      have h1 := nodup_keys_initIfAbsent fs i tl h
      cases en with
      | true => exact h1
      | false =>
          simp only [invokeStep, Bool.false_eq_true, if_false]
          split
          · exact nodup_keys_delFile _ _ h1
          · split
            · exact h1
            · exact nodup_keys_setFile _ _ _ h1
  | blob d m => simpa [invokeStep] using h
  | other p m => simpa [invokeStep] using h

/-! ### C8: abandoned partial blobs -/

theorem initIfAbsent_of_some (fs : Files) (i : String) (tl : Nat) (v : FileChunk)
    (h : getFile fs i = some v) : initIfAbsent fs i tl = fs := by
  simp [initIfAbsent, h]

theorem initIfAbsent_of_none (fs : Files) (i : String) (tl : Nat)
    (h : getFile fs i = none) : initIfAbsent fs i tl = setFile fs i (FileChunk.init tl) := by
  simp [initIfAbsent, h]

/-- A successful non-final chunk iteration: both guards pass, the payload
is written at the current offset, and nothing is yielded. -/
theorem invokeStep_nonfinal_ok {μ : Type} (fs : Files) (i : String) (tl : Nat) (d : List Byte)
    (m : μ)
    (hbw : ((getFile (initIfAbsent fs i tl) i).getD (FileChunk.init tl)).bytes_written + d.length
             ≤ 30 * 1024 * 1024)
    (hlen : d.length ≤ 8192) :
    invokeStep fs (ToolInvokeMessage.blobChunk i tl d false m)
      = (setFile (initIfAbsent fs i tl) i
          (writeChunk ((getFile (initIfAbsent fs i tl) i).getD (FileChunk.init tl)) d),
         [], none) := by
  have h1 : ¬ (31457280 <
      ((getFile (initIfAbsent fs i tl) i).getD (FileChunk.init tl)).bytes_written + d.length) := by
    omega
  have h2 : ¬ (8192 < d.length) := by omega
  simp [invokeStep, h1, h2]

/-- The payload length a message contributes to a blob buffer (`0` for
non-chunk messages). -/
def chunkLen {μ : Type} : ToolInvokeMessage μ → Nat
  | .blobChunk _ _ d _ _ => d.length
  | _ => 0

theorem invokeLoopAux_no_final {μ : Type} (evs : List (ToolInvokeMessage μ)) :
    ∀ fs : Files,
      (∀ e ∈ evs, e.isFinalChunk = false) →
      (∀ e ∈ evs, chunkLen e ≤ 8192) →
      (∀ p ∈ fs, p.2.bytes_written + (evs.map chunkLen).sum ≤ 30 * 1024 * 1024) →
      (evs.map chunkLen).sum ≤ 30 * 1024 * 1024 →
      invokeLoopAux fs evs = (evs.filter (fun e => !e.isBlobChunk), none) := by
  induction evs with
  | nil => intro fs _ _ _ _; rfl
  | cons e rest ih =>
      intro fs h1 h2 hfs htot
      have h1r : ∀ x ∈ rest, x.isFinalChunk = false :=
        fun x hx => h1 x (List.mem_cons_of_mem e hx)
      have h2r : ∀ x ∈ rest, chunkLen x ≤ 8192 :=
        fun x hx => h2 x (List.mem_cons_of_mem e hx)
      cases e with
      | blob d m =>
          have hstep : invokeStep fs (ToolInvokeMessage.blob d m)
              = (fs, [ToolInvokeMessage.blob d m], none) := rfl
          have hfsr : ∀ p ∈ fs, p.2.bytes_written + (rest.map chunkLen).sum ≤ 30 * 1024 * 1024 := by
            intro p hp
            have := hfs p hp
            simp [chunkLen] at this
            omega
          have htotr : (rest.map chunkLen).sum ≤ 30 * 1024 * 1024 := by
            simp [chunkLen] at htot
            omega
          simp [invokeLoopAux, hstep, ih fs h1r h2r hfsr htotr, List.filter_cons,
            ToolInvokeMessage.isBlobChunk]
      | other p0 m =>
          have hstep : invokeStep fs (ToolInvokeMessage.other p0 m)
              = (fs, [ToolInvokeMessage.other p0 m], none) := rfl
          have hfsr : ∀ p ∈ fs, p.2.bytes_written + (rest.map chunkLen).sum ≤ 30 * 1024 * 1024 := by
            intro p hp
            have := hfs p hp
            simp [chunkLen] at this
            omega
          have htotr : (rest.map chunkLen).sum ≤ 30 * 1024 * 1024 := by
            simp [chunkLen] at htot
            omega
          simp [invokeLoopAux, hstep, ih fs h1r h2r hfsr htotr, List.filter_cons,
            ToolInvokeMessage.isBlobChunk]
      | blobChunk i tl d en m =>
          have hen : en = false := by
            simpa [ToolInvokeMessage.isFinalChunk] using h1 _ (List.mem_cons_self _ _)
          subst hen
          have hdlen : d.length ≤ 8192 := by
            simpa [chunkLen] using h2 _ (List.mem_cons_self _ _)
          have hsum : ((ToolInvokeMessage.blobChunk i tl d false m :: rest).map chunkLen).sum
              = d.length + (rest.map chunkLen).sum := by
            simp [chunkLen]
          have hbw : ((getFile (initIfAbsent fs i tl) i).getD (FileChunk.init tl)).bytes_written
              + d.length ≤ 30 * 1024 * 1024 := by
            cases hg : getFile fs i with
            | some v =>
                rw [initIfAbsent_of_some fs i tl v hg, hg]
                have := hfs (i, v) (getFile_mem fs i v hg)
                rw [hsum] at this
                simp at this ⊢
                omega
            | none =>
                rw [initIfAbsent_of_none fs i tl hg, getFile_setFile_self]
                rw [hsum] at htot
                simp [FileChunk.init]
                omega
          have hstep := invokeStep_nonfinal_ok fs i tl d m hbw hdlen
          have hfsr : ∀ p ∈ setFile (initIfAbsent fs i tl) i
              (writeChunk ((getFile (initIfAbsent fs i tl) i).getD (FileChunk.init tl)) d),
              p.2.bytes_written + (rest.map chunkLen).sum ≤ 30 * 1024 * 1024 := by
            intro p hp
            rcases mem_setFile _ _ _ p hp with hp2 | hp2
            · subst hp2
              simp only [writeChunk]
              cases hg : getFile fs i with
              | some v =>
                  rw [initIfAbsent_of_some fs i tl v hg, hg]
                  have := hfs (i, v) (getFile_mem fs i v hg)
                  rw [hsum] at this
                  simp at this ⊢
                  omega
              | none =>
                  rw [initIfAbsent_of_none fs i tl hg, getFile_setFile_self]
                  rw [hsum] at htot
                  simp [FileChunk.init]
                  omega
            · rcases mem_initIfAbsent fs i tl p hp2 with hp3 | hp3
              · subst hp3
                rw [hsum] at htot
                simp [FileChunk.init]
                omega
              · have := hfs p hp3
                rw [hsum] at this
                omega
          have htotr : (rest.map chunkLen).sum ≤ 30 * 1024 * 1024 := by
            rw [hsum] at htot
            omega
          simp [invokeLoopAux, hstep, ih _ h1r h2r hfsr htotr, List.filter_cons,
            ToolInvokeMessage.isBlobChunk]

/-- C8 amended: if no chunk event is final, every chunk payload respects
the 8 KiB guard, and the total chunked payload respects the 30 MiB guard,
the loop ends with the pending blobs simply discarded: the output is
exactly the non-chunk events, in order, with no synthesized `Blob` and no
error. -/
theorem abandoned_blobs_amended {μ : Type} (evs : List (ToolInvokeMessage μ))
    (h1 : ∀ e ∈ evs, e.isFinalChunk = false)
    (h2 : ∀ e ∈ evs, chunkLen e ≤ 8192)
    (htot : (evs.map chunkLen).sum ≤ 30 * 1024 * 1024) :
    PluginToolManager.invoke evs = (evs.filter (fun e => !e.isBlobChunk), none) :=
  invokeLoopAux_no_final evs [] h1 h2 (by simp) htot

/-- Witness for C8's amended statement: one pending chunk plus one
pass-through event; the pending blob is discarded without error. -/
theorem abandoned_blobs_amended_witness :
    (∀ e ∈ [ToolInvokeMessage.blobChunk "x" 5 [1, 2] false (0 : Nat),
            ToolInvokeMessage.other 3 0], e.isFinalChunk = false)
    ∧ (∀ e ∈ [ToolInvokeMessage.blobChunk "x" 5 [1, 2] false (0 : Nat),
            ToolInvokeMessage.other 3 0], chunkLen e ≤ 8192)
    ∧ (([ToolInvokeMessage.blobChunk "x" 5 [1, 2] false (0 : Nat),
            ToolInvokeMessage.other 3 0].map chunkLen).sum ≤ 30 * 1024 * 1024)
    ∧ PluginToolManager.invoke
        [ToolInvokeMessage.blobChunk "x" 5 [1, 2] false (0 : Nat), ToolInvokeMessage.other 3 0]
      = ([ToolInvokeMessage.blobChunk "x" 5 [1, 2] false (0 : Nat),
          ToolInvokeMessage.other 3 0].filter (fun e => !e.isBlobChunk), none) :=
  ⟨by decide, by decide, by decide,
    abandoned_blobs_amended _ (by decide) (by decide) (by decide)⟩

/-- C8 counterexample: the lone event is a NON-final chunk for `"x"`, so
the stream ends while `"x"` has received only non-final chunks, yet the
loop raises the chunk-size error rather than ending silently. -/
theorem abandoned_blob_counterexample :
    (ToolInvokeMessage.blobChunk "x" 0 (List.replicate 8193 (7 : Byte)) false
        (0 : Nat)).isFinalChunk = false
    ∧ (PluginToolManager.invoke
        [ToolInvokeMessage.blobChunk "x" 0 (List.replicate 8193 (7 : Byte)) false (0 : Nat)]).2
      = some InvokeError.chunkTooLarge := by
  constructor
  · rfl
  · obtain ⟨d, hd⟩ : ∃ d : List Byte, d = List.replicate 8193 (7 : Byte) := ⟨_, rfl⟩
    rw [← hd]
    have hlen : d.length = 8193 := by rw [hd, List.length_replicate]
    simp [PluginToolManager.invoke, invokeLoopAux, invokeStep, initIfAbsent, getFile, setFile,
      FileChunk.init, hlen]

/-- C4 amended: processing a terminal chunk does NOT remove the pending
entry — the id is still present in the map after the `Blob` is emitted —
while every loop iteration preserves key uniqueness, so at most one
pending entry exists per chunk id at any time. -/
theorem pending_entry_amended {μ : Type} (fs : Files) (i : String) (tl : Nat) (d : List Byte)
    (m : μ) (e : ToolInvokeMessage μ) (hnd : (fs.map Prod.fst).Nodup) :
    ((getFile (invokeStep fs (ToolInvokeMessage.blobChunk i tl d true m)).1 i).isSome = true)
    ∧ (((invokeStep fs e).1).map Prod.fst).Nodup :=
  ⟨getFile_initIfAbsent_isSome fs i tl, nodup_keys_invokeStep fs e hnd⟩

/-- Witness for C4's amended statement on a concrete one-entry map. -/
theorem pending_entry_amended_witness :
    (([("a", FileChunk.init 1)].map Prod.fst).Nodup)
    ∧ ((getFile (invokeStep [("a", FileChunk.init 1)]
          (ToolInvokeMessage.blobChunk "x" 0 [] true (0 : Nat))).1 "x").isSome = true)
    ∧ (((invokeStep [("a", FileChunk.init 1)]
          (ToolInvokeMessage.blobChunk "x" 0 [] true (0 : Nat))).1).map Prod.fst).Nodup := by
  have hnd : (([("a", FileChunk.init 1)] : Files).map Prod.fst).Nodup := by decide
  exact ⟨hnd, pending_entry_amended [("a", FileChunk.init 1)] "x" 0 [] 0
    (ToolInvokeMessage.blobChunk "x" 0 [] true (0 : Nat)) hnd⟩

/-! ### C10: zero-filled allocation and zero padding of short blobs -/

/-- Invariant of a partially filled buffer: its size is the declared total
length and everything from the write offset on is still the zero fill. -/
def BufInv (fc : FileChunk) (tl s : Nat) : Prop :=
  fc.total_length = tl ∧ fc.bytes_written = s ∧ fc.data.length = tl
    ∧ fc.data.drop s = List.replicate (tl - s) 0

theorem bufInv_init (tl : Nat) : BufInv (FileChunk.init tl) tl 0 := by
  simp [BufInv, FileChunk.init]

theorem bufInv_write (fc : FileChunk) (tl s : Nat) (d : List Byte)
    (hinv : BufInv fc tl s) (hle : s + d.length ≤ tl) :
    BufInv (writeChunk fc d) tl (s + d.length) := by
  obtain ⟨h1, h2, h3, h4⟩ := hinv
  refine ⟨h1, by simp [writeChunk, h2], ?_, ?_⟩
  · simp only [writeChunk, sliceAssign, h2, List.length_append, List.length_take,
      List.length_drop, h3]
    omega
  · have hpre : (fc.data.take s ++ d).length = s + d.length := by
      simp [h3]
      omega
    simp only [writeChunk, sliceAssign, h2]
    rw [show s + d.length = (fc.data.take s ++ d).length from hpre.symm, List.drop_left,
      hpre, ← List.drop_drop, h4, List.drop_replicate]
    congr 1
    omega

theorem invokeLoopAux_assemble {μ : Type} (i : String) (tl : Nat) (m1 m2 : μ) :
    ∀ (ds : List (List Byte × Nat)) (fc : FileChunk) (s : Nat) (tlf : Nat) (df : List Byte),
      BufInv fc tl s →
      s + (ds.map (fun p => p.1.length)).sum ≤ tl →
      s + (ds.map (fun p => p.1.length)).sum ≤ 30 * 1024 * 1024 →
      (∀ p ∈ ds, p.1.length ≤ 8192) →
      ∃ buf : List Byte,
        invokeLoopAux [(i, fc)]
            (ds.map (fun p => ToolInvokeMessage.blobChunk i p.2 p.1 false m1)
              ++ [ToolInvokeMessage.blobChunk i tlf df true m2])
          = ([ToolInvokeMessage.blob buf m2], none)
        ∧ buf.length = tl
        ∧ buf.drop (s + (ds.map (fun p => p.1.length)).sum)
            = List.replicate (tl - (s + (ds.map (fun p => p.1.length)).sum)) 0 := by
  intro ds
  induction ds with
  | nil =>
      intro fc s tlf df hinv hsum hbud hds
      have hg : getFile [(i, fc)] i = some fc := by simp [getFile]
      have hstep : invokeStep [(i, fc)] (ToolInvokeMessage.blobChunk i tlf df true m2)
          = ([(i, fc)], [ToolInvokeMessage.blob fc.data m2], none) := by
        simp [invokeStep, initIfAbsent, hg]
      refine ⟨fc.data, ?_, hinv.2.2.1, ?_⟩
      · simp [invokeLoopAux, hstep]
      · simpa using hinv.2.2.2
  | cons pd rest ih =>
      intro fc s tlf df hinv hsum hbud hds
      obtain ⟨d, tlx⟩ := pd
      have hg : getFile [(i, fc)] i = some fc := by simp [getFile]
      have hsum2 : s + d.length + ((rest.map (fun p => p.1.length)).sum) ≤ tl := by
        simp at hsum
        omega
      have hbud2 : s + d.length + ((rest.map (fun p => p.1.length)).sum)
          ≤ 30 * 1024 * 1024 := by
        simp at hbud
        omega
      have hdl : d.length ≤ 8192 := hds (d, tlx) (List.mem_cons_self _ _)
      have hbw : ¬ (31457280 < fc.bytes_written + d.length) := by
        rw [hinv.2.1]
        omega
      have hbl : ¬ (8192 < d.length) := by omega
      have hstep : invokeStep [(i, fc)] (ToolInvokeMessage.blobChunk i tlx d false m1)
          = ([(i, writeChunk fc d)], [], none) := by
        simp [invokeStep, initIfAbsent, hg, hbw, hbl, setFile]
      have hinv2 : BufInv (writeChunk fc d) tl (s + d.length) :=
        bufInv_write fc tl s d hinv (by omega)
      obtain ⟨buf, hrun, hlenb, hdrop⟩ :=
        ih (writeChunk fc d) (s + d.length) tlf df hinv2 hsum2 (by omega)
          (fun p hp => hds p (List.mem_cons_of_mem _ hp))
      refine ⟨buf, ?_, hlenb, ?_⟩
      · simp only [List.map_cons, List.cons_append, invokeLoopAux, hstep]
        simp [hrun]
      · rw [show s + ((((d, tlx) :: rest).map (fun p => p.1.length)).sum)
            = s + d.length + ((rest.map (fun p => p.1.length)).sum) by simp; omega]
        exact hdrop

/-- C10: the buffer for a chunk id is allocated zero-filled, sized by the
`total_length` declared by the FIRST chunk seen for that id (later chunks'
declared lengths `p.2`, `tlf` are ignored), with no bound on that declared
length; whenever the bytes written stay within that size (the remaining
hypotheses only say the size guards on the WRITTEN bytes pass, so that the
run reaches emission), the emitted `Blob` has length exactly
`total_length`, with every unwritten position still the zero byte. -/
theorem blob_zero_fill {μ : Type} (i : String) (tl : Nat) (d0 : List Byte)
    (ds : List (List Byte × Nat)) (tlf : Nat) (df : List Byte) (m1 m2 : μ)
    (h0 : d0.length ≤ 8192)
    (hds : ∀ p ∈ ds, p.1.length ≤ 8192)
    (hsum : d0.length + (ds.map (fun p => p.1.length)).sum ≤ tl)
    (hbud : d0.length + (ds.map (fun p => p.1.length)).sum ≤ 30 * 1024 * 1024) :
    ∃ buf : List Byte,
      PluginToolManager.invoke
          (ToolInvokeMessage.blobChunk i tl d0 false m1
            :: (ds.map (fun p => ToolInvokeMessage.blobChunk i p.2 p.1 false m1)
              ++ [ToolInvokeMessage.blobChunk i tlf df true m2]))
        = ([ToolInvokeMessage.blob buf m2], none)
      ∧ buf.length = tl
      ∧ buf.drop (d0.length + (ds.map (fun p => p.1.length)).sum)
          = List.replicate (tl - (d0.length + (ds.map (fun p => p.1.length)).sum)) 0 := by
  have hbw0 : d0.length ≤ 31457280 := by omega
  have hbl0 : ¬ (8192 < d0.length) := by omega
  have hstep0 : invokeStep [] (ToolInvokeMessage.blobChunk i tl d0 false m1)
      = ([(i, writeChunk (FileChunk.init tl) d0)], [], none) := by
    simp [invokeStep, initIfAbsent, getFile, setFile, FileChunk.init, hbw0, hbl0, writeChunk]
  have hinv0 : BufInv (writeChunk (FileChunk.init tl) d0) tl (0 + d0.length) :=
    bufInv_write (FileChunk.init tl) tl 0 d0 (bufInv_init tl) (by omega)
  obtain ⟨buf, hrun, hlenb, hdrop⟩ :=
    invokeLoopAux_assemble i tl m1 m2 ds (writeChunk (FileChunk.init tl) d0)
      (0 + d0.length) tlf df hinv0 (by omega) (by omega) hds
  refine ⟨buf, ?_, hlenb, ?_⟩
  · simp only [PluginToolManager.invoke, invokeLoopAux, hstep0]
    simp [hrun]
  · rw [show d0.length + ((ds.map (fun p => p.1.length)).sum)
        = 0 + d0.length + ((ds.map (fun p => p.1.length)).sum) by omega]
    exact hdrop

/-- Witness for C10 on a concrete two-chunk blob whose declared length of
30 MiB + 5 bytes exceeds the cumulative guard's ceiling: the guard only
bounds WRITTEN bytes, so the run still emits a full-length zero-padded
blob. -/
theorem blob_zero_fill_witness :
    (([65] : List Byte).length ≤ 8192)
    ∧ (∀ p ∈ [(([66] : List Byte), 99)], p.1.length ≤ 8192)
    ∧ (([65] : List Byte).length
        + ([(([66] : List Byte), 99)].map (fun p => p.1.length)).sum ≤ 30 * 1024 * 1024 + 5)
    ∧ (([65] : List Byte).length
        + ([(([66] : List Byte), 99)].map (fun p => p.1.length)).sum ≤ 30 * 1024 * 1024)
    ∧ ∃ buf : List Byte,
        PluginToolManager.invoke
            (ToolInvokeMessage.blobChunk "x" (30 * 1024 * 1024 + 5) [65] false (0 : Nat)
              :: ([(([66] : List Byte), 99)].map
                    (fun p => ToolInvokeMessage.blobChunk "x" p.2 p.1 false (0 : Nat))
                ++ [ToolInvokeMessage.blobChunk "x" 7 [9] true 1]))
          = ([ToolInvokeMessage.blob buf 1], none)
        ∧ buf.length = 30 * 1024 * 1024 + 5
        ∧ buf.drop (([65] : List Byte).length
            + ([(([66] : List Byte), 99)].map (fun p => p.1.length)).sum)
            = List.replicate (30 * 1024 * 1024 + 5 - (([65] : List Byte).length
                + ([(([66] : List Byte), 99)].map (fun p => p.1.length)).sum)) 0 :=
  ⟨by decide, by decide, by decide, by decide,
    blob_zero_fill "x" (30 * 1024 * 1024 + 5) [65] [([66], 99)] 7 [9] 0 1 (by decide)
      (by decide) (by decide) (by decide)⟩
